import Mathlib

/-!
Verification of the VIX option backtest core of `excelr8`.

The shallow embedding below translates `analysis/staggered_absolute_strategy.py`
(`get_settlement_vix`, `find_spread`, `run_staggered_absolute`) and the parts of
`analysis/options_backtest.py` relevant to settlement (`get_vix_on_date`,
`get_settlement_vix`, `find_option`, `strategy_call_spreads`) into Lean.

Conventions of the embedding:
- dates (`quote_date`, `expiration`) are integers counting days, so that
  pandas timestamp subtraction `.days` becomes integer subtraction;
- monetary and price quantities are rationals (`ℚ`);
- a pandas dataframe is a list of rows in file order; boolean-mask filtering
  keeps order, `.iloc[0]` is `List.head?`;
- Python truthiness `if vix_exp:` on an optional float is `some v` with `v ≠ 0`;
- the one fallible operation of the engine, float division in the sizing step
  (`int(capital_per_position / max_loss_per)`), is embedded with an explicit
  error branch: the whole day-loop returns `Option`, `none` meaning the Python
  run raises `ZeroDivisionError`.
-/

namespace VixBacktest


/-! ## Kernel-computable `min`/`max`/`abs`

The `Min`/`Max` instances Mathlib puts on `ℚ` and `ℤ` go through the lattice
structure and do not reduce inside the kernel, so the executable definitions
below use explicit conditionals, with bridging lemmas to `min`/`max`/`abs`
for the proofs. -/

def qmin (a b : ℚ) : ℚ := if a ≤ b then a else b

def qmax (a b : ℚ) : ℚ := if a ≤ b then b else a

def qabs (a : ℚ) : ℚ := if 0 ≤ a then a else -a

def imin (a b : ℤ) : ℤ := if a ≤ b then a else b

def imax (a b : ℤ) : ℤ := if a ≤ b then b else a

theorem qmin_eq (a b : ℚ) : qmin a b = min a b := (min_def a b).symm

theorem qmax_eq (a b : ℚ) : qmax a b = max a b := (max_def a b).symm

theorem qabs_eq (a : ℚ) : qabs a = |a| := by
  rw [qabs]
  rcases le_or_lt 0 a with h | h
  · rw [if_pos h, abs_of_nonneg h]
  · rw [if_neg (not_le.mpr h), abs_of_neg h]

theorem imin_eq (a b : ℤ) : imin a b = min a b := (min_def a b).symm

theorem imax_eq (a b : ℤ) : imax a b = max a b := (max_def a b).symm

theorem imin_fun_eq : imin = (min : ℤ → ℤ → ℤ) :=
  funext fun a => funext fun b => imin_eq a b

theorem imax_fun_eq : imax = (max : ℤ → ℤ → ℤ) :=
  funext fun a => funext fun b => imax_eq a b

/-! ## Small executable list utilities (Python `min`, `max`, `sorted`) -/

/-- Python `min` over a nonempty collection, `none` on the empty one. -/
def listMin? : List ℤ → Option ℤ
  | [] => none
  | x :: xs => some (xs.foldl imin x)

/-- pandas `.max()` over a series of dates, `none` when the series is empty. -/
def listMax? : List ℤ → Option ℤ
  | [] => none
  | x :: xs => some (xs.foldl imax x)

theorem foldl_min_mem (xs : List ℤ) : ∀ x : ℤ, xs.foldl min x ∈ x :: xs := by
  induction xs with
  | nil => intro x; simp
  | cons y ys ih =>
      intro x
      simp only [List.foldl_cons]
      rcases List.mem_cons.mp (ih (min x y)) with h | h
      · rcases min_choice x y with hc | hc <;> rw [hc] at h ⊢ <;> simp [h]
      · simp [h]

theorem foldl_min_le (xs : List ℤ) : ∀ x : ℤ, xs.foldl min x ≤ x ∧ ∀ b ∈ xs, xs.foldl min x ≤ b := by
  induction xs with
  | nil => intro x; simp
  | cons y ys ih =>
      intro x
      obtain ⟨h1, h2⟩ := ih (min x y)
      simp only [List.foldl_cons]
      refine ⟨le_trans h1 (min_le_left _ _), ?_⟩
      intro b hb
      rcases List.mem_cons.mp hb with rfl | hb
      · exact le_trans h1 (min_le_right _ _)
      · exact h2 b hb

theorem listMin?_mem {l : List ℤ} {a : ℤ} (h : listMin? l = some a) : a ∈ l := by
  cases l with
  | nil => simp [listMin?] at h
  | cons x xs =>
      simp only [listMin?, imin_fun_eq, Option.some.injEq] at h
      subst h
      exact foldl_min_mem xs x

theorem listMin?_le {l : List ℤ} {a : ℤ} (h : listMin? l = some a) :
    ∀ b ∈ l, a ≤ b := by
  cases l with
  | nil => simp [listMin?] at h
  | cons x xs =>
      simp only [listMin?, imin_fun_eq, Option.some.injEq] at h
      subst h
      intro b hb
      rcases List.mem_cons.mp hb with rfl | hb
      · exact (foldl_min_le xs b).1
      · exact (foldl_min_le xs x).2 b hb

theorem foldl_max_mem (xs : List ℤ) : ∀ x : ℤ, xs.foldl max x ∈ x :: xs := by
  induction xs with
  | nil => intro x; simp
  | cons y ys ih =>
      intro x
      simp only [List.foldl_cons]
      rcases List.mem_cons.mp (ih (max x y)) with h | h
      · rcases max_choice x y with hc | hc <;> rw [hc] at h ⊢ <;> simp [h]
      · simp [h]

theorem foldl_max_ge (xs : List ℤ) : ∀ x : ℤ, x ≤ xs.foldl max x ∧ ∀ b ∈ xs, b ≤ xs.foldl max x := by
  induction xs with
  | nil => intro x; simp
  | cons y ys ih =>
      intro x
      obtain ⟨h1, h2⟩ := ih (max x y)
      simp only [List.foldl_cons]
      refine ⟨le_trans (le_max_left _ _) h1, ?_⟩
      intro b hb
      rcases List.mem_cons.mp hb with rfl | hb
      · exact le_trans (le_max_right _ _) h1
      · exact h2 b hb

theorem listMax?_mem {l : List ℤ} {a : ℤ} (h : listMax? l = some a) : a ∈ l := by
  cases l with
  | nil => simp [listMax?] at h
  | cons x xs =>
      simp only [listMax?, imax_fun_eq, Option.some.injEq] at h
      subst h
      exact foldl_max_mem xs x

theorem le_listMax? {l : List ℤ} {a : ℤ} (h : listMax? l = some a) :
    ∀ b ∈ l, b ≤ a := by
  cases l with
  | nil => simp [listMax?] at h
  | cons x xs =>
      simp only [listMax?, imax_fun_eq, Option.some.injEq] at h
      subst h
      intro b hb
      rcases List.mem_cons.mp hb with rfl | hb
      · exact (foldl_max_ge xs b).1
      · exact (foldl_max_ge xs x).2 b hb

theorem head?_mem {α : Type _} {l : List α} {a : α} (h : l.head? = some a) : a ∈ l := by
  cases l with
  | nil => simp at h
  | cons x xs => simp only [List.head?_cons, Option.some.injEq] at h; simp [h]

/-- Insertion of a date into a sorted list, used to model Python `sorted`. -/
def insertSorted (x : ℤ) : List ℤ → List ℤ
  | [] => [x]
  | y :: ys => if x ≤ y then x :: y :: ys else y :: insertSorted x ys

/-- Python `sorted` on a list of dates (ascending insertion sort). -/
def sortDates (l : List ℤ) : List ℤ := l.foldr insertSorted []

/-! ## Python `int()` truncation on rationals -/

/-- Python `int(x)`: truncation of a rational toward zero
(kernel-computable, unlike `Int.floor` on `ℚ`). -/
def ratTrunc (q : ℚ) : ℤ :=
  if 0 ≤ q.num then ((q.num.toNat / q.den : ℕ) : ℤ)
  else -(((-q.num).toNat / q.den : ℕ) : ℤ)

theorem ratTrunc_eq_floor_of_nonneg (q : ℚ) (hq : 0 ≤ q) : ratTrunc q = ⌊q⌋ := by
  have hnum : 0 ≤ q.num := Rat.num_nonneg.mpr hq
  have h1 : ((q.num.toNat : ℚ)) = ((q.num : ℤ) : ℚ) := by
    exact_mod_cast congrArg (fun z : ℤ => (z : ℚ)) (Int.toNat_of_nonneg hnum)
  have hrepr : ((q.num.toNat : ℚ)) / ((q.den : ℚ)) = q := by
    rw [h1]; exact Rat.num_div_den q
  calc ratTrunc q = ((q.num.toNat / q.den : ℕ) : ℤ) := by rw [ratTrunc, if_pos hnum]
    _ = ((⌊((q.num.toNat : ℚ)) / ((q.den : ℚ))⌋₊ : ℕ) : ℤ) := by
        rw [Rat.natFloor_natCast_div_natCast]
    _ = ((⌊q⌋₊ : ℕ) : ℤ) := by rw [hrepr]
    _ = ⌊q⌋ := Int.natCast_floor_eq_floor hq

theorem max_one_ratTrunc_eq_max_one_floor (q : ℚ) : max 1 (ratTrunc q) = max 1 ⌊q⌋ := by
  rcases le_or_lt 0 q with hq | hq
  · rw [ratTrunc_eq_floor_of_nonneg q hq]
  · have h1 : ⌊q⌋ ≤ 0 := by
      have := Int.floor_le_floor (le_of_lt hq)
      simpa using this
    have h2 : ratTrunc q ≤ 0 := by
      have hnum : ¬ 0 ≤ q.num := by
        rw [Rat.num_nonneg]
        exact not_le.mpr hq
      rw [ratTrunc, if_neg hnum]
      have : (0 : ℤ) ≤ (((-q.num).toNat / q.den : ℕ) : ℤ) := Int.natCast_nonneg _
      omega
    rw [max_eq_left (by omega), max_eq_left (by omega)]

/-! ## Data model

A quote row, as produced by `load_options_data`: the seven CSV columns plus
the derived `dte = (expiration - quote_date).dt.days` column. -/

structure Row where
  quote_date : ℤ
  expiration : ℤ
  strike : ℚ
  option_type : Char
  bid_eod : ℚ
  ask_eod : ℚ
  underlying_bid_eod : ℚ
  dte : ℤ
deriving DecidableEq, Repr

/-- The dictionary returned by `find_spread`. -/
structure Spread where
  expiration : ℤ
  short_strike : ℚ
  long_strike : ℚ
  credit : ℚ
  spread_width : ℚ
  dte : ℤ
deriving DecidableEq, Repr

/-- The dictionary appended to `open_positions` in `run_staggered_absolute`. -/
structure Position where
  entry_date : ℤ
  expiration : ℤ
  short_strike : ℚ
  long_strike : ℚ
  credit : ℚ
  spread_width : ℚ
  max_loss_per : ℚ
  contracts : ℤ
  vix_entry : ℚ
  capital_at_entry : ℚ
  dte_at_entry : ℤ
deriving DecidableEq, Repr

/-- The dictionary appended to `closed_trades` (`{**pos, ...}` flattened as a
nested `pos` field plus the settlement fields). -/
structure Trade where
  pos : Position
  exit_date : ℤ
  vix_exp : ℚ
  pnl_per : ℚ
  total_pnl : ℚ
  capital_after : ℚ
  win : Bool
deriving DecidableEq, Repr

/-- The keyword parameters of `run_staggered_absolute`. `target_positions` is a
count of positions and is embedded as a natural number. -/
structure Params where
  short_strike : ℚ
  long_strike : ℚ
  dte_min : ℤ
  dte_max : ℤ
  target_positions : ℕ
  starting_capital : ℚ
  entry_interval_days : ℤ
deriving DecidableEq, Repr

/-- The mutable state of the day loop of `run_staggered_absolute`. -/
structure EngineState where
  capital : ℚ
  open_positions : List Position
  closed_trades : List Trade
  last_entry : Option ℤ
deriving DecidableEq, Repr

/-- Accumulator of the expiration-check pass over `open_positions`:
running capital, positions that survive the pass (the complement of
`positions_to_close`), and the closed-trade list. -/
structure SettleAcc where
  capital : ℚ
  stillOpen : List Position
  closed : List Trade
deriving DecidableEq, Repr

/-! ## Embedded source functions -/

/-- `df[df['quote_date'] == date]`. -/
def dayRows (df : List Row) (date : ℤ) : List Row :=
  df.filter fun r => decide (r.quote_date = date)

/-- `sorted(df['quote_date'].unique())`. -/
def tradingDates (df : List Row) : List ℤ :=
  sortDates ((df.map Row.quote_date).dedup)

/-- `get_settlement_vix` of `staggered_absolute_strategy.py`: underlying level
on the expiration date if quoted, else on the latest strictly earlier quote
date, else `None`. -/
def get_settlement_vix (df : List Row) (expiration : ℤ) : Option ℚ :=
  match (dayRows df expiration).head? with
  | some r => some r.underlying_bid_eod
  | none =>
    match listMax? ((df.filter fun r => decide (r.quote_date < expiration)).map Row.quote_date) with
    | some prior =>
      match (dayRows df prior).head? with
      | some r => some r.underlying_bid_eod
      | none => none
    | none => none

/-- `get_vix_on_date` of `options_backtest.py`. -/
def get_vix_on_date (df : List Row) (date : ℤ) : Option ℚ :=
  ((dayRows df date).head?).map Row.underlying_bid_eod

/-- `get_settlement_vix` of `options_backtest.py` (written via
`get_vix_on_date`; extensionally the same lookup). -/
def get_settlement_vix_ob (df : List Row) (expiration : ℤ) : Option ℚ :=
  match get_vix_on_date df expiration with
  | some vix => some vix
  | none =>
    match listMax? ((df.filter fun r => decide (r.quote_date < expiration)).map Row.quote_date) with
    | some prior => get_vix_on_date df prior
    | none => none

/-- The `calls` filter of `find_spread`: call rows with DTE in
`[dte_min, dte_max]`. -/
def callsInRange (df_day : List Row) (dte_min dte_max : ℤ) : List Row :=
  df_day.filter fun r => decide (r.option_type = 'C' ∧ dte_min ≤ r.dte ∧ r.dte ≤ dte_max)

/-- Rows of `calls` at one exact strike. -/
def strikeRows (calls : List Row) (strike : ℚ) : List Row :=
  calls.filter fun r => decide (r.strike = strike)

/-- `set(short['expiration']) & set(long['expiration'])` as a list (duplicates
do not matter for the subsequent `min`). -/
def commonExps (short long : List Row) : List ℤ :=
  (short.map Row.expiration).filter fun e => long.any fun r => decide (r.expiration = e)

/-- `find_spread` of `staggered_absolute_strategy.py`. -/
def find_spread (df_day : List Row) (short_strike long_strike : ℚ)
    (dte_min dte_max : ℤ) : Option Spread :=
  let calls := callsInRange df_day dte_min dte_max
  let short := strikeRows calls short_strike
  let long := strikeRows calls long_strike
  if short.isEmpty || long.isEmpty then none
  else
    match listMin? (commonExps short long) with
    | none => none
    | some exp =>
      match (short.filter fun r => decide (r.expiration = exp)).head?,
            (long.filter fun r => decide (r.expiration = exp)).head? with
      | some s, some l =>
        let credit := s.bid_eod - l.ask_eod
        if credit ≤ 0 then none
        else some ⟨exp, short_strike, long_strike, credit,
                   long_strike - short_strike, s.dte⟩
      | _, _ => none

/-- One iteration of the `CHECK FOR EXPIRATIONS` pass of
`run_staggered_absolute`: an expired position is settled when the settlement
VIX is truthy (`if vix_exp:`) and is dropped from the open list in every case;
a non-expired position is carried over. -/
def settleOne (df : List Row) (date : ℤ) (acc : SettleAcc) (pos : Position) : SettleAcc :=
  if pos.expiration ≤ date then
    match get_settlement_vix df pos.expiration with
    | some vix_exp =>
      if vix_exp ≠ 0 then
        let short_intr := qmax 0 (vix_exp - pos.short_strike)
        let long_intr := qmax 0 (vix_exp - pos.long_strike)
        let settlement := qmin (short_intr - long_intr) pos.spread_width
        let pnl_per := (pos.credit - settlement) * 100
        let total_pnl := pnl_per * (pos.contracts : ℚ)
        { capital := acc.capital + total_pnl
          stillOpen := acc.stillOpen
          closed := acc.closed ++
            [{ pos := pos, exit_date := pos.expiration, vix_exp := vix_exp,
               pnl_per := pnl_per, total_pnl := total_pnl,
               capital_after := acc.capital + total_pnl,
               win := decide (0 < pnl_per) }] }
      else acc
    | none => acc
  else { acc with stillOpen := acc.stillOpen ++ [pos] }

/-- The whole expiration-check pass of one day. -/
def settleAll (df : List Row) (date : ℤ) (st : EngineState) : SettleAcc :=
  st.open_positions.foldl (settleOne df date) ⟨st.capital, [], st.closed_trades⟩

/-- `should_enter = last_entry is None or (date - last_entry).days >= entry_interval_days`. -/
def shouldEnter (last_entry : Option ℤ) (date : ℤ) (entry_interval_days : ℤ) : Bool :=
  match last_entry with
  | none => true
  | some le => decide (entry_interval_days ≤ date - le)

/-- One iteration of the day loop of `run_staggered_absolute`; `none` models
the `ZeroDivisionError` of `int(capital_per_position / max_loss_per)` when
`max_loss_per == 0`. -/
def processDay (df : List Row) (P : Params) (st : EngineState) (date : ℤ) :
    Option EngineState :=
  match (dayRows df date).head? with
  | none => some st
  | some r0 =>
    let vix := r0.underlying_bid_eod
    let a := settleAll df date st
    if shouldEnter st.last_entry date P.entry_interval_days ∧
        a.stillOpen.length < P.target_positions then
      match find_spread (dayRows df date) P.short_strike P.long_strike
              P.dte_min P.dte_max with
      | some spread =>
        let capital_per_position := a.capital / (P.target_positions : ℚ)
        let max_loss_per := (spread.spread_width - spread.credit) * 100
        if max_loss_per = 0 then none
        else
          let affordable := ratTrunc (capital_per_position / max_loss_per)
          let num_contracts := imax 1 affordable
          some { capital := a.capital
                 open_positions := a.stillOpen ++
                   [{ entry_date := date, expiration := spread.expiration,
                      short_strike := spread.short_strike,
                      long_strike := spread.long_strike,
                      credit := spread.credit,
                      spread_width := spread.spread_width,
                      max_loss_per := max_loss_per,
                      contracts := num_contracts,
                      vix_entry := vix, capital_at_entry := a.capital,
                      dte_at_entry := spread.dte }]
                 closed_trades := a.closed
                 last_entry := some date }
      | none =>
        some { capital := a.capital, open_positions := a.stillOpen,
               closed_trades := a.closed, last_entry := st.last_entry }
    else
      some { capital := a.capital, open_positions := a.stillOpen,
             closed_trades := a.closed, last_entry := st.last_entry }

/-- The day loop. -/
def runDays (df : List Row) (P : Params) : EngineState → List ℤ → Option EngineState
  | st, [] => some st
  | st, d :: ds =>
    match processDay df P st d with
    | none => none
    | some st' => runDays df P st' ds

/-- `run_staggered_absolute`: returns `(closed_trades, final_capital,
open_positions)`, or `none` when the Python run raises. -/
def run_staggered_absolute (df : List Row) (P : Params) :
    Option (List Trade × ℚ × List Position) :=
  match runDays df P ⟨P.starting_capital, [], [], none⟩ (tradingDates df) with
  | none => none
  | some st => some (st.closed_trades, st.capital, st.open_positions)

/-! ## `options_backtest.py`: `find_option` and `strategy_call_spreads` -/

/-- Python `round()` (round half to even) on a rational. -/
def pyRound (q : ℚ) : ℤ :=
  if 0 ≤ q then
    (if (q - (ratTrunc q : ℚ)) < 1/2 then ratTrunc q
     else if 1/2 < (q - (ratTrunc q : ℚ)) then ratTrunc q + 1
     else if ratTrunc q % 2 = 0 then ratTrunc q else ratTrunc q + 1)
  else
    (if ((ratTrunc q : ℚ) - q) < 1/2 then ratTrunc q
     else if 1/2 < ((ratTrunc q : ℚ) - q) then ratTrunc q - 1
     else if ratTrunc q % 2 = 0 then ratTrunc q else ratTrunc q - 1)

/-- `find_option`: the call/put row with DTE in range, positive bid, whose
strike is closest to the target (first such row on ties, pandas `idxmin`). -/
def find_option (df_day : List Row) (option_type : Char) (target_strike : ℚ)
    (dte_min dte_max : ℤ) : Option Row :=
  let opts := df_day.filter fun r =>
    decide (r.option_type = option_type ∧ dte_min ≤ r.dte ∧ r.dte ≤ dte_max ∧ 0 < r.bid_eod)
  match opts with
  | [] => none
  | x :: xs =>
    some (xs.foldl (fun best r =>
      if qabs (r.strike - target_strike) < qabs (best.strike - target_strike) then r else best) x)

/-- The position dictionary built by `strategy_call_spreads`. -/
structure CSPosition where
  entry_date : ℤ
  expiration : ℤ
  short_strike : ℚ
  long_strike : ℚ
  credit : ℚ
  max_loss : ℚ
  vix_entry : ℚ
deriving DecidableEq, Repr

/-- A row of the `results` list of `strategy_call_spreads`. -/
structure CSResult where
  pos : CSPosition
  settlement : ℚ
  pnl : ℚ
  vix_exp : ℚ
deriving DecidableEq, Repr

/-- Accumulator of the entry loop of `strategy_call_spreads`. -/
structure CSEntryAcc where
  positions : List CSPosition
  last_exp : Option ℤ
deriving DecidableEq, Repr

/-- One trading day of the entry loop of `strategy_call_spreads`. -/
def cs_entry_day (df : List Row) (short_offset long_offset : ℚ)
    (dte_min dte_max : ℤ) (acc : CSEntryAcc) (date : ℤ) : CSEntryAcc :=
  match (dayRows df date).head? with
  | none => acc
  | some r0 =>
    let vix := r0.underlying_bid_eod
    let go : Bool := match acc.last_exp with
      | none => true
      | some le => decide (le < date)
    if go then
      let short_strike := (pyRound ((vix + short_offset) / (5/2)) : ℚ) * (5/2)
      let long_strike := (pyRound ((vix + long_offset) / (5/2)) : ℚ) * (5/2)
      match find_option (dayRows df date) 'C' short_strike dte_min dte_max,
            find_option (dayRows df date) 'C' long_strike dte_min dte_max with
      | some short_call, some long_call =>
        if short_call.expiration = long_call.expiration then
          let credit := short_call.bid_eod - long_call.ask_eod
          let spread_width := long_call.strike - short_call.strike
          if 1/10 < credit ∧ 0 < spread_width then
            { positions := acc.positions ++
                [{ entry_date := date, expiration := short_call.expiration,
                   short_strike := short_call.strike,
                   long_strike := long_call.strike, credit := credit,
                   max_loss := spread_width - credit, vix_entry := vix }],
              last_exp := some short_call.expiration }
          else acc
        else acc
      | _, _ => acc
    else acc

/-- The settlement loop body of `strategy_call_spreads`: note the settlement
is NOT clamped to the spread width here (unlike the staggered engine). -/
def cs_settle (df : List Row) (pos : CSPosition) : Option CSResult :=
  match get_settlement_vix_ob df pos.expiration with
  | some vix_exp =>
    if vix_exp ≠ 0 then
      let short_intr := qmax 0 (vix_exp - pos.short_strike)
      let long_intr := qmax 0 (vix_exp - pos.long_strike)
      let settlement := short_intr - long_intr
      some { pos := pos, settlement := settlement,
             pnl := (pos.credit - settlement) * 100, vix_exp := vix_exp }
    else none
  | none => none

/-- `strategy_call_spreads`: entry loop over the trading days, then the
settlement loop over the accumulated positions. -/
def strategy_call_spreads (df : List Row) (short_offset long_offset : ℚ)
    (dte_min dte_max : ℤ) : List CSResult :=
  let entry := (tradingDates df).foldl
    (cs_entry_day df short_offset long_offset dte_min dte_max) ⟨[], none⟩
  entry.positions.filterMap (cs_settle df)

/-! ## Concrete datasets used by the witnesses and counterexamples -/

/-- Default parameters of `run_staggered_absolute`
(35/45 spread, 60–100 DTE, 3 positions, $40k, 28-day cadence). -/
def P0 : Params := ⟨35, 45, 60, 100, 3, 40000, 28⟩

/-- A four-day dataset on which the default run closes two trades. -/
def dfW : List Row :=
  [⟨0, 70, 35, 'C', 5, 6, 20, 70⟩, ⟨0, 70, 45, 'C', 2, 3, 20, 70⟩,
   ⟨30, 100, 35, 'C', 5, 6, 22, 70⟩, ⟨30, 100, 45, 'C', 2, 3, 22, 70⟩,
   ⟨70, 140, 35, 'C', 1, 2, 24, 70⟩,
   ⟨100, 170, 35, 'C', 1, 2, 50, 70⟩]

def posW1 : Position := ⟨0, 70, 35, 45, 2, 10, 800, 16, 20, 40000, 70⟩

def posW2 : Position := ⟨30, 100, 35, 45, 2, 10, 800, 16, 22, 40000, 70⟩

def tW1 : Trade := ⟨posW1, 70, 24, 200, 3200, 43200, true⟩

def tW2 : Trade := ⟨posW2, 100, 50, -800, -12800, 30400, false⟩

/-- Dataset for the C1 counterexample: with a negative DTE window the entered
position expires before any quote date, so `get_settlement_vix` finds no
price at all, yet the engine still discards the expired position. -/
def dfC1 : List Row :=
  [⟨0, -5, 35, 'C', 5, 6, 20, -5⟩, ⟨0, -5, 45, 'C', 2, 3, 20, -5⟩,
   ⟨1, 50, 35, 'C', 1, 1, 21, 49⟩]

def PC1 : Params := ⟨35, 45, -10, -1, 3, 40000, 28⟩

def posC1 : Position := ⟨0, -5, 35, 45, 2, 10, 800, 16, 20, 40000, -5⟩

/-- Dataset and parameters for the C3/C7 counterexamples: inverted strikes
(short 45, long 35) still produce a tradable spread with negative width. -/
def dfC3 : List Row :=
  [⟨0, 70, 45, 'C', 5, 6, 20, 70⟩, ⟨0, 70, 35, 'C', 2, 3, 20, 70⟩,
   ⟨70, 140, 35, 'C', 1, 2, 25, 70⟩]

def PC3 : Params := ⟨45, 35, 60, 100, 3, 40000, 28⟩

def posC3 : Position := ⟨0, 70, 45, 35, 2, -10, -1200, 1, 20, 40000, 70⟩

def tC3 : Trade := ⟨posC3, 70, 25, 1200, 1200, 41200, true⟩

/-- Dataset for C9/C6: a spread whose credit equals its width, so
`max_loss_per == 0` and the sizing division raises `ZeroDivisionError`. -/
def dfC9 : List Row :=
  [⟨0, 70, 35, 'C', 13, 14, 20, 70⟩, ⟨0, 70, 45, 'C', 2, 3, 20, 70⟩]

def spC9 : Spread := ⟨70, 35, 45, 10, 10, 70⟩

/-- Dataset for C10: the quote on day 70 exists but its underlying level is
exactly 0, which the truthiness test treats as a missing price. -/
def dfC10 : List Row := [⟨70, 100, 35, 'C', 1, 2, 0, 30⟩]


/-- One further spread row list for the C7 counterexample (a single day's
quotes with the 45 strike bid rich enough to give positive credit on an
inverted 45/35 spread). -/
def dfDay7 : List Row :=
  [⟨0, 70, 45, 'C', 5, 6, 20, 70⟩, ⟨0, 70, 35, 'C', 2, 3, 20, 70⟩]

/-! ## Concrete run evaluations (kernel-checked) -/

set_option maxRecDepth 3000 in
theorem dfW_run : run_staggered_absolute dfW P0 = some ([tW1, tW2], 30400, []) := by
  with_unfolding_all rfl

set_option maxRecDepth 3000 in
theorem dfW_runDays :
    runDays dfW P0 ⟨40000, [], [], none⟩ (tradingDates dfW) =
      some ⟨30400, [], [tW1, tW2], some 30⟩ := by
  with_unfolding_all rfl

set_option maxRecDepth 3000 in
theorem dfC1_day0 :
    runDays dfC1 PC1 ⟨40000, [], [], none⟩ [0] = some ⟨40000, [posC1], [], some 0⟩ := by
  with_unfolding_all rfl

set_option maxRecDepth 3000 in
theorem dfC1_run : run_staggered_absolute dfC1 PC1 = some ([], 40000, []) := by
  with_unfolding_all rfl

set_option maxRecDepth 3000 in
theorem dfC3_run : run_staggered_absolute dfC3 PC3 = some ([tC3], 41200, []) := by
  with_unfolding_all rfl

set_option maxRecDepth 3000 in
theorem dfC9_run : run_staggered_absolute dfC9 P0 = none := by
  with_unfolding_all rfl

set_option maxRecDepth 3000 in
theorem dfC9_day0 : processDay dfC9 P0 ⟨40000, [], [], none⟩ 0 = none := by
  with_unfolding_all rfl

/-! ## Specification-level definitions -/

/-- The settlement value the engine computes for an expired position at
settlement VIX `vix_exp` (intrinsic value of the spread, clamped above by the
spread width). -/
def settlementOf (vix_exp : ℚ) (pos : Position) : ℚ :=
  min (max 0 (vix_exp - pos.short_strike) - max 0 (vix_exp - pos.long_strike)) pos.spread_width

/-- Sum of `total_pnl` over a closed-trade list. -/
def tradePnlSum (ts : List Trade) : ℚ := (ts.map Trade.total_pnl).sum

/-- The capital ledger invariant: each trade's `capital_after` is the previous
running capital plus the trade's `total_pnl`. -/
def ledgerOk : ℚ → List Trade → Prop
  | _, [] => True
  | c, t :: ts => t.capital_after = c + t.total_pnl ∧ ledgerOk t.capital_after ts

/-- Shape of every position the staggered engine opens: its strikes are the
run's configured strikes and its width is their difference. -/
def posShape (P : Params) (pos : Position) : Prop :=
  pos.short_strike = P.short_strike ∧ pos.long_strike = P.long_strike ∧
    pos.spread_width = P.long_strike - P.short_strike

/-- Shape of every closed trade: its position has the configured strikes, and
`credit - pnl_per/100` recovers the settlement value the engine computed. -/
def tradeShape (P : Params) (t : Trade) : Prop :=
  posShape P t.pos ∧
    t.pos.credit - t.pnl_per / 100 =
      min (max 0 (t.vix_exp - P.short_strike) - max 0 (t.vix_exp - P.long_strike))
        (P.long_strike - P.short_strike)

/-- Invariant carried through the expiration-check fold. -/
def SettleInv (P : Params) (acc : SettleAcc) : Prop :=
  acc.capital = P.starting_capital + tradePnlSum acc.closed ∧
    ledgerOk P.starting_capital acc.closed ∧
    (∀ pos ∈ acc.stillOpen, posShape P pos) ∧
    (∀ t ∈ acc.closed, tradeShape P t)

/-- Invariant of the engine state at every day boundary. -/
def EngineInv (P : Params) (st : EngineState) : Prop :=
  st.capital = P.starting_capital + tradePnlSum st.closed_trades ∧
    ledgerOk P.starting_capital st.closed_trades ∧
    st.open_positions.length ≤ P.target_positions ∧
    (∀ pos ∈ st.open_positions, posShape P pos) ∧
    (∀ t ∈ st.closed_trades, tradeShape P t)

/-! ## Ledger lemmas -/

theorem tradePnlSum_append (ts : List Trade) (t : Trade) :
    tradePnlSum (ts ++ [t]) = tradePnlSum ts + t.total_pnl := by
  simp [tradePnlSum]

theorem ledgerOk_append {c : ℚ} {ts : List Trade} {t : Trade} (h : ledgerOk c ts)
    (ht : t.capital_after = c + tradePnlSum ts + t.total_pnl) :
    ledgerOk c (ts ++ [t]) := by
  induction ts generalizing c with
  | nil =>
      simp only [List.nil_append, ledgerOk]
      refine ⟨?_, trivial⟩
      simpa [tradePnlSum] using ht
  | cons t' ts' ih =>
      obtain ⟨h1, h2⟩ := h
      refine ⟨h1, ih h2 ?_⟩
      rw [ht, h1]
      simp [tradePnlSum]
      ring

theorem ledgerOk_get {c : ℚ} {ts : List Trade} (h : ledgerOk c ts) :
    ∀ i (hi : i + 1 < ts.length),
      (ts.get ⟨i + 1, hi⟩).capital_after =
        (ts.get ⟨i, Nat.lt_of_succ_lt hi⟩).capital_after + (ts.get ⟨i + 1, hi⟩).total_pnl := by
  induction ts generalizing c with
  | nil => intro i hi; simp at hi
  | cons t ts' ih =>
      intro i hi
      obtain ⟨h1, h2⟩ := h
      cases i with
      | zero =>
          cases ts' with
          | nil => simp at hi
          | cons t2 ts'' =>
              obtain ⟨h3, _⟩ := h2
              simpa using h3
      | succ j =>
          have := ih h2 j (by simpa using hi)
          simpa using this

theorem ledgerOk_head {c : ℚ} {ts : List Trade} (h : ledgerOk c ts) (h0 : 0 < ts.length) :
    (ts.get ⟨0, h0⟩).capital_after = c + (ts.get ⟨0, h0⟩).total_pnl := by
  cases ts with
  | nil => simp at h0
  | cons t ts' => simpa using h.1

/-! ## Bounds on the spread intrinsic value -/

theorem maxdiff_nonneg (ss ls v : ℚ) (h : ss ≤ ls) :
    0 ≤ max 0 (v - ss) - max 0 (v - ls) := by
  have hm : max 0 (v - ls) ≤ max 0 (v - ss) :=
    max_le (le_max_left 0 _) (le_trans (by linarith) (le_max_right 0 (v - ss)))
  linarith

theorem maxdiff_le (ss ls v : ℚ) (h : ss ≤ ls) :
    max 0 (v - ss) - max 0 (v - ls) ≤ ls - ss := by
  have h1 : (0:ℚ) ≤ (ls - ss) + max 0 (v - ls) :=
    add_nonneg (by linarith) (le_max_left 0 _)
  have h2 : v - ss ≤ (ls - ss) + max 0 (v - ls) := by
    have := le_max_right 0 (v - ls); linarith
  have h3 : max 0 (v - ss) ≤ (ls - ss) + max 0 (v - ls) := max_le h1 h2
  linarith

/-! ## `find_spread` characterization lemmas -/

theorem find_spread_fields (df_day : List Row) (ss ls : ℚ) (dmin dmax : ℤ) (sp : Spread)
    (h : find_spread df_day ss ls dmin dmax = some sp) :
    sp.short_strike = ss ∧ sp.long_strike = ls ∧ sp.spread_width = ls - ss ∧ 0 < sp.credit := by
  simp only [find_spread] at h
  split at h
  · exact absurd h (by simp)
  · split at h
    · exact absurd h (by simp)
    · split at h
      · split at h
        · exact absurd h (by simp)
        · obtain rfl := (Option.some.injEq _ _).mp h.symm
          exact ⟨rfl, rfl, rfl, by rename_i hc; exact lt_of_not_le hc⟩
      · exact absurd h (by simp)

/-! ## Branch lemmas for the expiration-check step -/

theorem settleOne_live (df : List Row) (date : ℤ) (acc : SettleAcc) (pos : Position)
    (hexp : ¬ pos.expiration ≤ date) :
    settleOne df date acc pos = { acc with stillOpen := acc.stillOpen ++ [pos] } := by
  simp [settleOne, hexp]

theorem settleOne_skip (df : List Row) (date : ℤ) (acc : SettleAcc) (pos : Position)
    (hexp : pos.expiration ≤ date)
    (hmiss : get_settlement_vix df pos.expiration = none ∨
      get_settlement_vix df pos.expiration = some 0) :
    settleOne df date acc pos = acc := by
  rcases hmiss with h | h <;> simp [settleOne, hexp, h]

theorem settleOne_settled (df : List Row) (date : ℤ) (acc : SettleAcc) (pos : Position)
    {v : ℚ} (hexp : pos.expiration ≤ date)
    (hv : get_settlement_vix df pos.expiration = some v) (hv0 : v ≠ 0) :
    settleOne df date acc pos =
      { capital := acc.capital + (pos.credit - settlementOf v pos) * 100 * (pos.contracts : ℚ)
        stillOpen := acc.stillOpen
        closed := acc.closed ++
          [{ pos := pos, exit_date := pos.expiration, vix_exp := v,
             pnl_per := (pos.credit - settlementOf v pos) * 100,
             total_pnl := (pos.credit - settlementOf v pos) * 100 * (pos.contracts : ℚ),
             capital_after :=
               acc.capital + (pos.credit - settlementOf v pos) * 100 * (pos.contracts : ℚ),
             win := decide (0 < (pos.credit - settlementOf v pos) * 100) }] } := by
  simp only [settleOne, hv, if_pos hexp, if_pos hv0, settlementOf, qmin_eq, qmax_eq]

/-! ## Invariant preservation -/

theorem settleOne_inv (df : List Row) (date : ℤ) (P : Params) (acc : SettleAcc) (pos : Position)
    (hacc : SettleInv P acc) (hpos : posShape P pos) :
    SettleInv P (settleOne df date acc pos) ∧
      (settleOne df date acc pos).stillOpen.length ≤ acc.stillOpen.length + 1 := by
  obtain ⟨hcap, hled, hopen, htr⟩ := hacc
  by_cases hexp : pos.expiration ≤ date
  · cases hv : get_settlement_vix df pos.expiration with
    | none =>
        rw [settleOne_skip df date acc pos hexp (Or.inl hv)]
        exact ⟨⟨hcap, hled, hopen, htr⟩, by omega⟩
    | some v =>
        by_cases hv0 : v = 0
        · subst hv0
          rw [settleOne_skip df date acc pos hexp (Or.inr hv)]
          exact ⟨⟨hcap, hled, hopen, htr⟩, by omega⟩
        · rw [settleOne_settled df date acc pos hexp hv hv0]
          refine ⟨⟨?_, ?_, ?_, ?_⟩, by simp⟩
          · show acc.capital + _ = P.starting_capital + tradePnlSum (acc.closed ++ [_])
            rw [tradePnlSum_append, hcap]
            ring
          · apply ledgerOk_append hled
            show acc.capital + _ = P.starting_capital + tradePnlSum acc.closed + _
            rw [hcap]
          · exact hopen
          · intro t ht
            rcases List.mem_append.mp ht with hmem | hmem
            · exact htr t hmem
            · rw [List.mem_singleton] at hmem
              subst hmem
              obtain ⟨hss, hls, hw⟩ := hpos
              refine ⟨⟨hss, hls, hw⟩, ?_⟩
              show pos.credit - (pos.credit - settlementOf v pos) * 100 / 100 = _
              have h100 : (pos.credit - settlementOf v pos) * 100 / 100 =
                  pos.credit - settlementOf v pos := by
                field_simp
              rw [h100, settlementOf, hss, hls, hw]
              ring
  · rw [settleOne_live df date acc pos hexp]
    refine ⟨⟨hcap, hled, ?_, htr⟩, by simp⟩
    intro p hp
    rcases List.mem_append.mp hp with hmem | hmem
    · exact hopen p hmem
    · rw [List.mem_singleton] at hmem
      subst hmem
      exact hpos

theorem settleFold_inv (df : List Row) (date : ℤ) (P : Params) :
    ∀ (l : List Position) (acc : SettleAcc), SettleInv P acc → (∀ p ∈ l, posShape P p) →
      SettleInv P (l.foldl (settleOne df date) acc) ∧
        (l.foldl (settleOne df date) acc).stillOpen.length ≤ acc.stillOpen.length + l.length := by
  intro l
  induction l with
  | nil => intro acc h _; exact ⟨h, by simp⟩
  | cons p ps ih =>
      intro acc h hl
      obtain ⟨h1, h2⟩ := settleOne_inv df date P acc p h (hl p (by simp))
      obtain ⟨h3, h4⟩ := ih (settleOne df date acc p) h1 (fun q hq => hl q (by simp [hq]))
      refine ⟨by simpa using h3, ?_⟩
      simp only [List.foldl_cons, List.length_cons]
      omega

theorem settleAll_inv (df : List Row) (date : ℤ) (P : Params) (st : EngineState)
    (hinv : EngineInv P st) :
    SettleInv P (settleAll df date st) ∧
      (settleAll df date st).stillOpen.length ≤ st.open_positions.length := by
  obtain ⟨hcap, hled, hlen, hopen, htr⟩ := hinv
  obtain ⟨h1, h2⟩ := settleFold_inv df date P st.open_positions
    ⟨st.capital, [], st.closed_trades⟩ ⟨hcap, hled, by simp, htr⟩ hopen
  exact ⟨h1, by simpa [settleAll] using h2⟩

theorem processDay_inv (df : List Row) (P : Params) (st : EngineState) (date : ℤ)
    (st' : EngineState) (hinv : EngineInv P st) (h : processDay df P st date = some st') :
    EngineInv P st' := by
  obtain ⟨hset, hslen⟩ := settleAll_inv df date P st hinv
  obtain ⟨hcap, hled, hopen, htr⟩ := hset
  have hlen : (settleAll df date st).stillOpen.length ≤ P.target_positions :=
    le_trans hslen hinv.2.2.1
  simp only [processDay] at h
  split at h
  · obtain rfl := (Option.some.injEq _ _).mp h
    exact hinv
  · split at h
    · -- entry window open and room for a position
      split at h
      · -- find_spread succeeded
        split at h
        · exact absurd h (by simp)
        · obtain rfl := (Option.some.injEq _ _).mp h
          rename_i hroom hsp hml
          refine ⟨hcap, hled, ?_, ?_, htr⟩
          · simp only [List.length_append, List.length_singleton]
            omega
          · intro p hp
            rcases List.mem_append.mp hp with hmem | hmem
            · exact hopen p hmem
            · rw [List.mem_singleton] at hmem
              subst hmem
              obtain ⟨hss, hls, hw, _⟩ := find_spread_fields _ _ _ _ _ _ hsp
              exact ⟨hss, hls, hw⟩
      · obtain rfl := (Option.some.injEq _ _).mp h
        exact ⟨hcap, hled, hlen, hopen, htr⟩
    · obtain rfl := (Option.some.injEq _ _).mp h
      exact ⟨hcap, hled, hlen, hopen, htr⟩

theorem runDays_inv (df : List Row) (P : Params) :
    ∀ (ds : List ℤ) (st st' : EngineState), EngineInv P st →
      runDays df P st ds = some st' → EngineInv P st' := by
  intro ds
  induction ds with
  | nil =>
      intro st st' hinv h
      simp only [runDays] at h
      obtain rfl := (Option.some.injEq _ _).mp h
      exact hinv
  | cons d ds' ih =>
      intro st st' hinv h
      simp only [runDays] at h
      split at h
      · exact absurd h (by simp)
      · rename_i st1 hstep
        exact ih st1 st' (processDay_inv df P st d st1 hinv hstep) h

theorem engineInv_init (P : Params) : EngineInv P ⟨P.starting_capital, [], [], none⟩ := by
  refine ⟨by simp [tradePnlSum], trivial, by simp, by simp, by simp⟩

theorem run_inv (df : List Row) (P : Params) (trades : List Trade) (final : ℚ)
    (openp : List Position) (h : run_staggered_absolute df P = some (trades, final, openp)) :
    final = P.starting_capital + tradePnlSum trades ∧
      ledgerOk P.starting_capital trades ∧
      openp.length ≤ P.target_positions ∧
      (∀ t ∈ trades, tradeShape P t) := by
  simp only [run_staggered_absolute] at h
  split at h
  · exact absurd h (by simp)
  · rename_i st hrun
    have hinv := runDays_inv df P (tradingDates df) _ st (engineInv_init P) hrun
    simp only [Option.some.injEq, Prod.mk.injEq] at h
    obtain ⟨rfl, rfl, rfl⟩ := h
    exact ⟨hinv.1, hinv.2.1, hinv.2.2.1, hinv.2.2.2.2⟩

/-! ## `strategy_call_spreads`: every recorded position has positive width -/

theorem cs_entry_day_shape (df : List Row) (so lo : ℚ) (dmin dmax : ℤ)
    (acc : CSEntryAcc) (date : ℤ)
    (hacc : ∀ p ∈ acc.positions, p.short_strike < p.long_strike) :
    ∀ p ∈ (cs_entry_day df so lo dmin dmax acc date).positions,
      p.short_strike < p.long_strike := by
  simp only [cs_entry_day]
  split
  · exact hacc
  · split
    · split
      · split
        · split
          · intro p hp
            rcases List.mem_append.mp hp with hmem | hmem
            · exact hacc p hmem
            · rw [List.mem_singleton] at hmem
              subst hmem
              rename_i hcond
              have hw := hcond.2
              show _ < _
              linarith
          · exact hacc
        · exact hacc
      · exact hacc
    · exact hacc

theorem cs_positions_shape (df : List Row) (so lo : ℚ) (dmin dmax : ℤ) :
    ∀ (dates : List ℤ) (acc : CSEntryAcc),
      (∀ p ∈ acc.positions, p.short_strike < p.long_strike) →
      ∀ p ∈ (dates.foldl (cs_entry_day df so lo dmin dmax) acc).positions,
        p.short_strike < p.long_strike := by
  intro dates
  induction dates with
  | nil => intro acc h; simpa using h
  | cons d ds ih =>
      intro acc h
      simp only [List.foldl_cons]
      exact ih _ (cs_entry_day_shape df so lo dmin dmax acc d h)

theorem cs_settle_bounds (df : List Row) (pos : CSPosition) (res : CSResult)
    (hpos : pos.short_strike < pos.long_strike) (h : cs_settle df pos = some res) :
    0 ≤ res.settlement ∧ res.settlement ≤ res.pos.long_strike - res.pos.short_strike := by
  simp only [cs_settle] at h
  split at h
  · rename_i v hv
    split at h
    · rename_i hv0
      obtain rfl := (Option.some.injEq _ _).mp h.symm
      constructor
      · show (0:ℚ) ≤ qmax 0 (v - pos.short_strike) - qmax 0 (v - pos.long_strike)
        rw [qmax_eq, qmax_eq]
        exact maxdiff_nonneg _ _ _ (le_of_lt hpos)
      · show qmax 0 (v - pos.short_strike) - qmax 0 (v - pos.long_strike) ≤ _
        rw [qmax_eq, qmax_eq]
        exact maxdiff_le _ _ _ (le_of_lt hpos)
    · exact absurd h (by simp)
  · exact absurd h (by simp)

/-! ## Claim theorems -/

/-- **C2**: in `run_staggered_absolute`, for every open position whose
expiration is ≤ the current date and whose settlement VIX is found (truthy),
the engine computes settlement = min(max(0, VIX_exp − short_strike) − max(0,
VIX_exp − long_strike), spread_width), per-contract P&L = (credit −
settlement) × 100, total P&L = per-contract P&L × contracts, adds the total
P&L to capital, appends the corresponding closed trade, and does not carry
the position into the surviving open-position list. -/
theorem C2_settlement (df : List Row) (date : ℤ) (acc : SettleAcc) (pos : Position)
    (v : ℚ) (hexp : pos.expiration ≤ date)
    (hv : get_settlement_vix df pos.expiration = some v) (hv0 : v ≠ 0) :
    settleOne df date acc pos =
      { capital := acc.capital + (pos.credit - settlementOf v pos) * 100 * (pos.contracts : ℚ)
        stillOpen := acc.stillOpen
        closed := acc.closed ++
          [{ pos := pos, exit_date := pos.expiration, vix_exp := v,
             pnl_per := (pos.credit - settlementOf v pos) * 100,
             total_pnl := (pos.credit - settlementOf v pos) * 100 * (pos.contracts : ℚ),
             capital_after :=
               acc.capital + (pos.credit - settlementOf v pos) * 100 * (pos.contracts : ℚ),
             win := decide (0 < (pos.credit - settlementOf v pos) * 100) }] } :=
  settleOne_settled df date acc pos hexp hv hv0

/-- Witness for C2: the day-70 settlement of the first `dfW` position. -/
theorem C2_settlement_witness :
    settleOne dfW 70 ⟨40000, [], []⟩ posW1 = ⟨43200, [], [tW1]⟩ := by
  rw [C2_settlement dfW 70 ⟨40000, [], []⟩ posW1 24 (by decide) (by decide) (by decide)]
  simp only [settlementOf, ← qmin_eq, ← qmax_eq]
  with_unfolding_all rfl

/-- **C1** counterexample: on `dfC1` with a negative-DTE window, a position is
open after day 0 and its expiration (day −5) has no quote at or before it, so
its settlement lookup yields no price at all; yet at the end of the run the
open-position list is empty and no trade was closed — the expired position
was silently discarded in the cycle that reached its expiration, not retried
and not left open. -/
theorem C1_counterexample :
    get_settlement_vix dfC1 (-5) = none ∧
    runDays dfC1 PC1 ⟨40000, [], [], none⟩ [0] = some ⟨40000, [posC1], [], some 0⟩ ∧
    posC1.expiration = -5 ∧
    run_staggered_absolute dfC1 PC1 = some ([], 40000, []) :=
  ⟨by decide, dfC1_day0, by decide, dfC1_run⟩

/-- **C1** (amended): when an open position's expiration has been reached but
the settlement lookup yields no usable price (`None`, or `0.0` which the
truthiness test treats the same), the engine removes the position from the
open-position list in that same cycle without emitting a closed trade and
without changing capital; it is never retried on a later date. -/
theorem C1_expired_dropped (df : List Row) (date : ℤ) (acc : SettleAcc) (pos : Position)
    (hexp : pos.expiration ≤ date)
    (hmiss : get_settlement_vix df pos.expiration = none ∨
      get_settlement_vix df pos.expiration = some 0) :
    settleOne df date acc pos = acc :=
  settleOne_skip df date acc pos hexp hmiss

/-- Witness for the amended C1 at the concrete day-1 cycle of `dfC1`. -/
theorem C1_expired_dropped_witness :
    settleOne dfC1 1 ⟨40000, [], []⟩ posC1 = ⟨40000, [], []⟩ :=
  C1_expired_dropped dfC1 1 ⟨40000, [], []⟩ posC1 (by decide) (Or.inl (by decide))

/-- **C10**: when the settlement lookup yields an underlying level of exactly
0.0 — even though a quote row for the settlement date exists in the data —
the truthiness test `if vix_exp:` treats it like a missing price: no
settlement is computed, no closed trade is emitted, capital is unchanged
(and, as for any expired position, it is dropped from the open list). -/
theorem C10_zero_truthiness (df : List Row) (date : ℤ) (acc : SettleAcc) (pos : Position)
    (r : Row) (_hr : r ∈ df) (_hrq : r.quote_date = pos.expiration)
    (hexp : pos.expiration ≤ date)
    (hv : get_settlement_vix df pos.expiration = some 0) :
    settleOne df date acc pos = acc :=
  settleOne_skip df date acc pos hexp (Or.inr hv)

/-- Witness for C10 on `dfC10`, whose only quote row carries underlying 0. -/
theorem C10_zero_truthiness_witness :
    settleOne dfC10 70 ⟨40000, [], []⟩ posW1 = ⟨40000, [], []⟩ :=
  C10_zero_truthiness dfC10 70 ⟨40000, [], []⟩ posW1 ⟨70, 100, 35, 'C', 1, 2, 0, 30⟩
    (by decide) (by decide) (by decide) (by decide)

/-- **C5**: after any prefix of the day iteration of `run_staggered_absolute`
(starting from the initial state), the number of open positions is at most
`target_positions`, and capital equals the starting capital plus the sum of
settled trades' P&L — i.e. capital is mutated only by settlement events,
never by entries. -/
theorem C5_day_invariant (df : List Row) (P : Params) (ds : List ℤ) (st' : EngineState)
    (h : runDays df P ⟨P.starting_capital, [], [], none⟩ ds = some st') :
    st'.open_positions.length ≤ P.target_positions ∧
      st'.capital = P.starting_capital + tradePnlSum st'.closed_trades := by
  have hinv := runDays_inv df P ds _ st' (engineInv_init P) h
  exact ⟨hinv.2.2.1, hinv.1⟩

/-- Witness for C5 at the end state of the full `dfW` run. -/
theorem C5_day_invariant_witness :
    (⟨30400, [], [tW1, tW2], some 30⟩ : EngineState).open_positions.length ≤
        P0.target_positions ∧
      (⟨30400, [], [tW1, tW2], some 30⟩ : EngineState).capital =
        P0.starting_capital +
          tradePnlSum (⟨30400, [], [tW1, tW2], some 30⟩ : EngineState).closed_trades :=
  C5_day_invariant dfW P0 (tradingDates dfW) ⟨30400, [], [tW1, tW2], some 30⟩ dfW_runDays

/-- **C4**: for every completed run, the closed-trade list forms a capital
ledger: `capital_after[i] = capital_after[i-1] + total_pnl[i]` for `i ≥ 1`,
`capital_after[0] = starting_capital + total_pnl[0]`, and the sum of all
`total_pnl` equals `final_capital − starting_capital`. -/
theorem C4_capital_ledger (df : List Row) (P : Params) (trades : List Trade) (final : ℚ)
    (openp : List Position)
    (h : run_staggered_absolute df P = some (trades, final, openp)) :
    (∀ i (hi : i + 1 < trades.length),
        (trades.get ⟨i + 1, hi⟩).capital_after =
          (trades.get ⟨i, Nat.lt_of_succ_lt hi⟩).capital_after +
            (trades.get ⟨i + 1, hi⟩).total_pnl) ∧
    (∀ h0 : 0 < trades.length,
        (trades.get ⟨0, h0⟩).capital_after = P.starting_capital +
          (trades.get ⟨0, h0⟩).total_pnl) ∧
    tradePnlSum trades = final - P.starting_capital := by
  obtain ⟨hfin, hled, _, _⟩ := run_inv df P trades final openp h
  refine ⟨fun i hi => ledgerOk_get hled i hi, fun h0 => ledgerOk_head hled h0, ?_⟩
  rw [hfin]; ring

/-- Witness for C4 on the two-trade `dfW` run: the P&L total matches the
capital change. -/
theorem C4_capital_ledger_witness :
    tradePnlSum [tW1, tW2] = (30400 : ℚ) - 40000 :=
  (C4_capital_ledger dfW P0 [tW1, tW2] 30400 [] dfW_run).2.2

/-- **C3** counterexample: `run_staggered_absolute` accepts inverted strike
parameters (short 45 / long 35); on `dfC3` it closes a trade whose computed
settlement value `credit − pnl_per/100` is −10, with spread_width −10, so the
settlement does NOT lie in `[0, spread_width]` (it is negative, and the
interval is empty). -/
theorem C3_counterexample :
    run_staggered_absolute dfC3 PC3 = some ([tC3], 41200, []) ∧
    tC3.pos.credit - tC3.pnl_per / 100 = -10 ∧
    tC3.pos.spread_width = -10 ∧
    ¬ (0 ≤ tC3.pos.credit - tC3.pnl_per / 100) := by
  refine ⟨dfC3_run, ?_, by rfl, ?_⟩
  · show (2 : ℚ) - 1200 / 100 = -10
    norm_num
  · show ¬ ((0 : ℚ) ≤ 2 - 1200 / 100)
    norm_num

/-- **C3** (amended): the settlement value of every closed trade lies in
`[0, spread_width]` provided the configured strikes satisfy
`short_strike ≤ long_strike`; for `strategy_call_spreads` this holds
unconditionally because its entry check requires positive width.
For staggered-engine trades the settlement value is recovered as
`credit − pnl_per/100`; `strategy_call_spreads` records it directly. -/
theorem C3_settlement_bounds :
    (∀ (df : List Row) (P : Params) (trades : List Trade) (final : ℚ)
        (openp : List Position), P.short_strike ≤ P.long_strike →
        run_staggered_absolute df P = some (trades, final, openp) →
        ∀ t ∈ trades, 0 ≤ t.pos.credit - t.pnl_per / 100 ∧
          t.pos.credit - t.pnl_per / 100 ≤ t.pos.spread_width) ∧
    (∀ (df : List Row) (short_offset long_offset : ℚ) (dte_min dte_max : ℤ),
        ∀ res ∈ strategy_call_spreads df short_offset long_offset dte_min dte_max,
          0 ≤ res.settlement ∧
            res.settlement ≤ res.pos.long_strike - res.pos.short_strike) := by
  constructor
  · intro df P trades final openp hss h t ht
    obtain ⟨_, _, _, htr⟩ := run_inv df P trades final openp h
    obtain ⟨⟨hts, htl, htw⟩, hsv⟩ := htr t ht
    rw [hsv, htw]
    constructor
    · exact le_min (maxdiff_nonneg _ _ _ hss) (by linarith)
    · exact min_le_right _ _
  · intro df so lo dmin dmax res hres
    simp only [strategy_call_spreads] at hres
    obtain ⟨p, hp, hsettle⟩ := List.mem_filterMap.mp hres
    have hshape := cs_positions_shape df so lo dmin dmax (tradingDates df) ⟨[], none⟩
      (by simp) p hp
    exact cs_settle_bounds df p res hshape hsettle

/-- Witness for the amended C3 at the first closed trade of the `dfW` run. -/
theorem C3_settlement_bounds_witness :
    0 ≤ tW1.pos.credit - tW1.pnl_per / 100 ∧
      tW1.pos.credit - tW1.pnl_per / 100 ≤ tW1.pos.spread_width :=
  C3_settlement_bounds.1 dfW P0 [tW1, tW2] 30400 [] (by decide) dfW_run tW1 (by simp)

/-- **C6** counterexample: on day 0 of `dfC9` the entry conditions hold (no
prior entry, zero open positions) and the spread finder succeeds with
candidate `spC9`, but `spread_width − credit = 0` makes `max_loss_per` zero,
so the sizing division raises and the day produces no state at all — no open
position is recorded and no last-entry date is updated. -/
theorem C6_entry_crash :
    shouldEnter none 0 P0.entry_interval_days = true ∧
    (settleAll dfC9 0 ⟨40000, [], [], none⟩).stillOpen.length < P0.target_positions ∧
    find_spread (dayRows dfC9 0) P0.short_strike P0.long_strike P0.dte_min P0.dte_max =
      some spC9 ∧
    processDay dfC9 P0 ⟨40000, [], [], none⟩ 0 = none :=
  ⟨by rfl, by decide, by with_unfolding_all rfl, dfC9_day0⟩

/-- **C6** (amended): on every trading day where the entry gap and
position-count conditions hold and the spread finder succeeds, provided
`max_loss_per = (spread_width − credit) × 100` is nonzero, the engine records
the new open position sized at `contracts = max 1 ⌊(capital /
target_positions) / max_loss_per⌋` (hence never below one contract) and sets
the last-entry date to the current day; with `max_loss_per = 0` the run
aborts with a `ZeroDivisionError` instead. -/
theorem C6_entry_records (df : List Row) (P : Params) (st : EngineState) (date : ℤ)
    (r0 : Row) (sp : Spread)
    (hday : (dayRows df date).head? = some r0)
    (hgap : shouldEnter st.last_entry date P.entry_interval_days = true)
    (hroom : (settleAll df date st).stillOpen.length < P.target_positions)
    (hsp : find_spread (dayRows df date) P.short_strike P.long_strike P.dte_min P.dte_max =
      some sp)
    (hml : (sp.spread_width - sp.credit) * 100 ≠ 0) :
    processDay df P st date = some
      { capital := (settleAll df date st).capital
        open_positions := (settleAll df date st).stillOpen ++
          [{ entry_date := date, expiration := sp.expiration,
             short_strike := sp.short_strike, long_strike := sp.long_strike,
             credit := sp.credit, spread_width := sp.spread_width,
             max_loss_per := (sp.spread_width - sp.credit) * 100,
             contracts := max 1 ⌊(settleAll df date st).capital / (P.target_positions : ℚ) /
               ((sp.spread_width - sp.credit) * 100)⌋,
             vix_entry := r0.underlying_bid_eod,
             capital_at_entry := (settleAll df date st).capital,
             dte_at_entry := sp.dte }]
        closed_trades := (settleAll df date st).closed
        last_entry := some date } ∧
    (1 : ℤ) ≤ max 1 ⌊(settleAll df date st).capital / (P.target_positions : ℚ) /
      ((sp.spread_width - sp.credit) * 100)⌋ := by
  constructor
  · simp only [processDay, hday, hsp, if_pos (And.intro hgap hroom), if_neg hml, imax_eq,
      max_one_ratTrunc_eq_max_one_floor]
  · exact le_max_left 1 _

/-- A nonzero max-loss fact used to instantiate the C6 witness. -/
theorem mlp800_ne : (((10 : ℚ) - 2) * 100) ≠ 0 := by norm_num

/-- Witness for the amended C6: day 0 of `dfW` records the first position. -/
theorem C6_entry_records_witness :
    processDay dfW P0 ⟨40000, [], [], none⟩ 0 = some ⟨40000, [posW1], [], some 0⟩ := by
  rw [(C6_entry_records dfW P0 ⟨40000, [], [], none⟩ 0 ⟨0, 70, 35, 'C', 5, 6, 20, 70⟩
      ⟨70, 35, 45, 2, 10, 70⟩ (by decide) (by rfl) (by decide)
      (by with_unfolding_all rfl) mlp800_ne).1]
  rw [← max_one_ratTrunc_eq_max_one_floor, ← imax_eq]
  with_unfolding_all rfl

/-- **C7** counterexample: `find_spread` never validates the strike order, so
with inverted arguments (short 45, long 35) it returns a candidate whose
`spread_width` is −10 — the claim's `width > 0` guarantee is false. -/
theorem C7_width_counterexample :
    find_spread dfDay7 45 35 60 100 = some ⟨70, 45, 35, 2, -10, 70⟩ ∧
    ¬ (0 < (⟨70, 45, 35, 2, -10, 70⟩ : Spread).spread_width) :=
  ⟨by with_unfolding_all rfl, by norm_num⟩

/-- **C7** (amended): `find_spread` either returns `none` or a candidate
obtained exactly as described — calls filtered to the DTE window, rows at the
two target strikes, the earliest expiration common to both strikes, credit =
first short row's bid − first long row's ask — and every returned candidate
satisfies `credit > 0` and `spread_width = long_strike − short_strike`; but
the width is NOT checked to be positive. -/
theorem C7_spread_candidate (df_day : List Row) (ss ls : ℚ) (dmin dmax : ℤ) (sp : Spread)
    (h : find_spread df_day ss ls dmin dmax = some sp) :
    0 < sp.credit ∧ sp.short_strike = ss ∧ sp.long_strike = ls ∧
    sp.spread_width = ls - ss ∧
    sp.expiration ∈ commonExps (strikeRows (callsInRange df_day dmin dmax) ss)
      (strikeRows (callsInRange df_day dmin dmax) ls) ∧
    (∀ e ∈ commonExps (strikeRows (callsInRange df_day dmin dmax) ss)
      (strikeRows (callsInRange df_day dmin dmax) ls), sp.expiration ≤ e) ∧
    ∃ s ∈ strikeRows (callsInRange df_day dmin dmax) ss,
      ∃ l ∈ strikeRows (callsInRange df_day dmin dmax) ls,
        s.expiration = sp.expiration ∧ l.expiration = sp.expiration ∧
        sp.credit = s.bid_eod - l.ask_eod ∧ sp.dte = s.dte := by
  simp only [find_spread] at h
  split at h
  · exact absurd h (by simp)
  · split at h
    · exact absurd h (by simp)
    · rename_i exp hmin
      split at h
      · rename_i s l hs hl
        split at h
        · exact absurd h (by simp)
        · rename_i hc
          obtain rfl := (Option.some.injEq _ _).mp h.symm
          refine ⟨lt_of_not_le hc, rfl, rfl, rfl, ?_, ?_, ?_⟩
          · exact listMin?_mem hmin
          · exact listMin?_le hmin
          · have hsm := head?_mem hs
            have hlm := head?_mem hl
            rw [List.mem_filter] at hsm hlm
            refine ⟨s, hsm.1, l, hlm.1, ?_, ?_, rfl, rfl⟩
            · have := hsm.2; simpa using this
            · have := hlm.2; simpa using this
      · exact absurd h (by simp)

/-- Witness for the amended C7 on day 0 of `dfW`. -/
theorem C7_spread_candidate_witness :
    0 < (⟨70, 35, 45, 2, 10, 70⟩ : Spread).credit ∧
      (⟨70, 35, 45, 2, 10, 70⟩ : Spread).spread_width = 45 - 35 := by
  have h := C7_spread_candidate (dayRows dfW 0) 35 45 60 100 ⟨70, 35, 45, 2, 10, 70⟩
    (by with_unfolding_all rfl)
  exact ⟨h.1, h.2.2.2.1⟩

/-- **C8**: both `get_settlement_vix` implementations return the underlying
level of the first quote row on the expiration date when one exists; failing
that, the level on the most recent quote date strictly prior to the
expiration (which is maximal among all earlier quote dates); and `none` when
no quote at or before the expiration exists. -/
theorem C8_settlement_lookup (df : List Row) (expiration : ℤ) :
    (∀ r : Row, (dayRows df expiration).head? = some r →
        get_settlement_vix df expiration = some r.underlying_bid_eod ∧
        get_settlement_vix_ob df expiration = some r.underlying_bid_eod) ∧
    (∀ p : ℤ, (dayRows df expiration).head? = none →
        listMax? ((df.filter fun r => decide (r.quote_date < expiration)).map
          Row.quote_date) = some p →
        p < expiration ∧
        (∀ r ∈ df, r.quote_date < expiration → r.quote_date ≤ p) ∧
        (∀ r : Row, (dayRows df p).head? = some r →
            get_settlement_vix df expiration = some r.underlying_bid_eod ∧
            get_settlement_vix_ob df expiration = some r.underlying_bid_eod)) ∧
    ((dayRows df expiration).head? = none →
        listMax? ((df.filter fun r => decide (r.quote_date < expiration)).map
          Row.quote_date) = none →
        get_settlement_vix df expiration = none ∧
          get_settlement_vix_ob df expiration = none) := by
  refine ⟨?_, ?_, ?_⟩
  · intro r hr
    constructor
    · simp [get_settlement_vix, hr]
    · simp [get_settlement_vix_ob, get_vix_on_date, hr]
  · intro p hnone hmax
    have hpmem := listMax?_mem hmax
    rw [List.mem_map] at hpmem
    obtain ⟨r', hr', hq⟩ := hpmem
    rw [List.mem_filter] at hr'
    have hlt : p < expiration := by
      have h2 := hr'.2
      rw [← hq]
      simpa using h2
    refine ⟨hlt, ?_, ?_⟩
    · intro r hrdf hrlt
      apply le_listMax? hmax
      rw [List.mem_map]
      exact ⟨r, List.mem_filter.mpr ⟨hrdf, by simpa using hrlt⟩, rfl⟩
    · intro r hr
      constructor
      · simp [get_settlement_vix, hnone, hmax, hr]
      · simp [get_settlement_vix_ob, get_vix_on_date, hnone, hmax, hr]
  · intro hnone hmax
    constructor
    · simp [get_settlement_vix, hnone, hmax]
    · simp [get_settlement_vix_ob, get_vix_on_date, hnone, hmax]

/-- Witness for C8: day 70 of `dfW` has a quote row, so both lookups return
its underlying level. -/
theorem C8_settlement_lookup_witness :
    get_settlement_vix dfW 70 = some 24 ∧ get_settlement_vix_ob dfW 70 = some 24 :=
  (C8_settlement_lookup dfW 70).1 ⟨70, 140, 35, 'C', 1, 2, 24, 70⟩ (by decide)

/-- **C9**: the sizing step's division is unguarded: on `dfC9` the finder
returns a candidate with `spread_width − credit = 0`, the entry conditions
hold, and the embedded division's error branch is taken — the day step and
the whole run return `none` (Python: `ZeroDivisionError`). -/
theorem C9_division_reachable :
    find_spread (dayRows dfC9 0) 35 45 60 100 = some spC9 ∧
    spC9.spread_width - spC9.credit = 0 ∧
    processDay dfC9 P0 ⟨40000, [], [], none⟩ 0 = none ∧
    run_staggered_absolute dfC9 P0 = none :=
  ⟨by with_unfolding_all rfl, by norm_num [spC9], dfC9_day0, dfC9_run⟩

end VixBacktest
